import Mathlib

/-!
Verification of the BrowserClaw task-router worker, memory engine and
credential store against their natural-language specification.

The definitions below are a shallow embedding of the JavaScript source:

* `src/src/ui/app.tsx` (task-router worker): `countTokens`,
  `calculateComplexity`, `determinePriority`, `makeRoutingDecision`,
  `enqueueTask`, `dequeueTask`, the `self.onmessage` dispatcher (`step`) and
  `updateConfig`.
* `src/src/memory/gravitational-bit.js`: `GravitationalBit`
  (`encode`/`decode`/`hashText`).
* `src/src/memory/rag-booster.js`: `RAGBooster.search` scoring.
* `src/src/core/soul.js`: `encryptApiKeys` / `decryptApiKeys` / `getApiKeys`.

JavaScript numbers holding small non-negative integers are modelled as `Nat`;
`undefined` task fields are modelled as `Option` (`none` = `undefined`),
with the JS comparison quirks (`undefined < x` and `undefined === x` are
`false`) made explicit in `jsLtPriority` / `jsEqPriority`.  Strings are ASCII
in every concrete input used here, so `String.length` (chars) coincides with
the JS UTF-16 length and `Char.toLower` with `String.prototype.toLowerCase`.
-/

/-! ## Character and substring helpers (JS `includes`, `toLowerCase`, regex) -/

/-- Lower-casing of a character list, modelling `String.prototype.toLowerCase`
(ASCII range; all concrete inputs in this file are ASCII). -/
def lowerChars (l : List Char) : List Char := l.map Char.toLower

/-- Whether the first list is a prefix of the second (Boolean). -/
def isPrefixOfChars : List Char → List Char → Bool
  | [], _ => true
  | _ :: _, [] => false
  | a :: as, b :: bs => a == b && isPrefixOfChars as bs

/-- `containsSub needle haystack` models JS `haystack.includes(needle)`. -/
def containsSub (needle : List Char) : List Char → Bool
  | [] => isPrefixOfChars needle []
  | c :: rest => isPrefixOfChars needle (c :: rest) || containsSub needle rest

/-- ASCII digit test, modelling the regex class `\d`. -/
def isDigitCh (c : Char) : Bool := '0' ≤ c && c ≤ '9'

/-- Word character test, modelling the regex class `\w` = `[A-Za-z0-9_]`. -/
def isWordCh (c : Char) : Bool := c.isAlpha || isDigitCh c || c == '_'

/-- Whitespace test, modelling the regex class `\s` (the JS class also holds a
few rare Unicode space separators that never occur in the inputs here). -/
def isSpaceCh (c : Char) : Bool :=
  c == ' ' || c == '\t' || c == '\n' || c == '\r' || c == '\x0B' ||
  c == '\x0C' || c == ' '

/-- Does `\d+\s*[.)]\s+\w` match at the head of the list?  (The character
classes of `\d`, `\s`, `[.)]` and `\w` are pairwise disjoint at each junction,
so the greedy deterministic scan below is exactly the regex semantics.) -/
def matchNumberedHead (l : List Char) : Bool :=
  let ds := l.takeWhile isDigitCh
  if ds.isEmpty then false
  else
    let r1 := l.drop ds.length
    let r2 := r1.drop (r1.takeWhile isSpaceCh).length
    match r2 with
    | [] => false
    | p :: r3 =>
      if p == '.' || p == ')' then
        let sp := r3.takeWhile isSpaceCh
        if sp.isEmpty then false
        else
          match r3.drop sp.length with
          | [] => false
          | w :: _ => isWordCh w
      else false

/-- Scan for a match of `\b\d+\s*[.)]\s+\w+` anywhere in the list; `prev` is
the character before the current position (`none` at the start), used for the
word boundary `\b` (the first matched character is a digit, hence a word
character, so the boundary holds iff `prev` is absent or a non-word char). -/
def matchNumberedAux (prev : Option Char) : List Char → Bool
  | [] => false
  | c :: rest =>
    ((match prev with
      | none => true
      | some p => !isWordCh p) && matchNumberedHead (c :: rest))
    || matchNumberedAux (some c) rest

/-- Models `/\b\d+\s*[.)]\s+\w+/.test(message)` from `calculateComplexity`. -/
def matchNumbered (l : List Char) : Bool := matchNumberedAux none l

/-! ## Task-router worker: scoring (`src/src/ui/app.tsx` lines 441-554) -/

/-- `PRIORITY.URGENT`. -/
def PRIORITY_URGENT : Nat := 3
/-- `PRIORITY.NORMAL`. -/
def PRIORITY_NORMAL : Nat := 2
/-- `PRIORITY.BACKGROUND`. -/
def PRIORITY_BACKGROUND : Nat := 1
/-- `MAX_QUEUE_DEPTH`. -/
def MAX_QUEUE_DEPTH : Nat := 50

/-- `countTokens`: `Math.ceil(text.length / 4)`. -/
def countTokens (text : String) : Nat := (text.length + 3) / 4

/-- `multiStepKeywords` from `calculateComplexity`. -/
def multiStepKeywords : List String :=
  ["then", "after", "next", "first", "second", "third", "finally", "step"]

/-- `domainKeywords.code`. -/
def domainKeywordsCode : List String :=
  ["code", "function", "programming", "javascript", "python", "debug", "error"]

/-- `domainKeywords.math`. -/
def domainKeywordsMath : List String :=
  ["calculate", "solve", "equation", "math", "formula", "compute"]

/-- `domainKeywords.law`. -/
def domainKeywordsLaw : List String :=
  ["legal", "law", "contract", "regulation", "compliance"]

/-- `realtimeKeywords`. -/
def realtimeKeywords : List String :=
  ["now", "immediately", "quick", "fast", "urgent"]

/-- `privacyKeywords`. -/
def privacyKeywords : List String :=
  ["private", "confidential", "secret", "personal"]

/-- `calculateComplexity` (the score part; the `realtime` and `privacyFlag`
side effects are modelled separately below).  Mirrors the sequential
`score += …` accumulation; the `for … of Object.entries(domainKeywords)` loop
with `break` adds 2 iff some keyword of some family occurs. -/
def calculateComplexity (message : String) : Nat :=
  let lowerMessage := lowerChars message.data
  let tokenCount := countTokens message
  let score1 := if tokenCount > 1000 then 0 + 2 else 0
  let score2 := if tokenCount > 4000 then score1 + 2 else score1
  let score3 :=
    if multiStepKeywords.any (fun kw => containsSub kw.data lowerMessage)
        || matchNumbered message.data then score2 + 3 else score2
  let score4 :=
    if domainKeywordsCode.any (fun kw => containsSub kw.data lowerMessage)
        || domainKeywordsMath.any (fun kw => containsSub kw.data lowerMessage)
        || domainKeywordsLaw.any (fun kw => containsSub kw.data lowerMessage)
      then score3 + 2 else score3
  min score4 10

/-- The `task.realtime` flag set inside `calculateComplexity`. -/
def hasRealtimeFlag (message : String) : Bool :=
  realtimeKeywords.any (fun kw => containsSub kw.data (lowerChars message.data))

/-- The privacy-keyword part of the `task.privacyFlag` assignment inside
`calculateComplexity` (the full flag also ORs `state.config.privacyMode`). -/
def hasPrivacyKeyword (message : String) : Bool :=
  privacyKeywords.any (fun kw => containsSub kw.data (lowerChars message.data))

/-- `determinePriority`. -/
def determinePriority (complexity : Nat) (realtime : Bool) : Nat :=
  if complexity ≥ 8 || realtime then PRIORITY_URGENT
  else if complexity ≥ 4 then PRIORITY_NORMAL
  else PRIORITY_BACKGROUND

/-- `state.config.mode`: `'auto' | 'local' | 'cloud'`. -/
inductive Mode where
  | auto
  | localMode
  | cloudMode
deriving DecidableEq, Repr

/-- The routing decision `'LOCAL' | 'CLOUD'`. -/
inductive Route where
  | LOCAL
  | CLOUD
deriving DecidableEq, Repr

/-- `state.config` of the task-router worker. -/
structure RouterConfig where
  mode : Mode
  threshold : Nat
  privacyMode : Bool
deriving DecidableEq, Repr

/-- `makeRoutingDecision`, as a pure function of the task flags, the
complexity, the config and the executor-availability booleans. -/
def makeRoutingDecision (privacyFlag realtime : Bool) (complexity : Nat)
    (config : RouterConfig) (localModelLoaded cloudAvailable : Bool) : Route :=
  if privacyFlag then Route.LOCAL
  else if realtime && localModelLoaded then Route.LOCAL
  else if config.mode = Mode.localMode then
    (if localModelLoaded then Route.LOCAL else Route.CLOUD)
  else if config.mode = Mode.cloudMode then
    (if cloudAvailable then Route.CLOUD else Route.LOCAL)
  else if complexity ≥ config.threshold then
    (if cloudAvailable then Route.CLOUD else Route.LOCAL)
  else
    (if localModelLoaded then Route.LOCAL else Route.CLOUD)

/-! ## Task-router worker: queue and message dispatcher
(`src/src/ui/app.tsx` lines 556-889)

A task object arrives with `{ id, message, channel, userId, metadata }` plus a
`receivedAt` stamp; its `complexity`, `priority`, `realtime`, `privacyFlag`
and `route` fields are assigned only when `processTask` runs on it — a task
sitting in the queue still has them `undefined`, modelled here as `none`. -/

/-- A task held by the worker. -/
structure QTask where
  id : Nat
  message : String
  receivedAt : Nat
  complexity : Option Nat := none
  priority : Option Nat := none
  realtime : Option Bool := none
  privacyFlag : Option Bool := none
  route : Option Route := none
deriving DecidableEq, Repr

/-- The events the worker posts back to the main thread. -/
inductive Event where
  | queued (taskId position : Nat)
  | routed (taskId : Nat) (route : Route) (complexity priority : Nat)
      (realtime privacyFlag : Bool)
  | executeLocal (taskId : Nat)
  | executeCloud (taskId : Nat)
  | dropped (taskId : Nat) (reason : String)
  | preempted (taskId : Nat)
  | cancelled (taskId : Nat)
  | queueCleared
  | completed (taskId : Nat) (response : String)
deriving DecidableEq, Repr

/-- The worker state (`state` in the source; the RAG booster reference is not
modelled, so `assembleContext` falls back to the raw message). -/
structure WState where
  queue : List QTask
  currentTask : Option QTask
  config : RouterConfig
  localModelLoaded : Bool
  cloudAvailable : Bool
  /-- model clock backing `Date.now()`: bumped at each task arrival. -/
  now : Nat
deriving DecidableEq, Repr

/-- The worker's initial state. -/
def initialState : WState :=
  { queue := [], currentTask := none,
    config := { mode := Mode.auto, threshold := 6, privacyMode := false },
    localModelLoaded := false, cloudAvailable := false, now := 0 }

/-- JS `a < b` on possibly-`undefined` numbers: any comparison with
`undefined` is `false` (it converts to `NaN`). -/
def jsLtPriority : Option Nat → Option Nat → Bool
  | some a, some b => decide (a < b)
  | _, _ => false

/-- JS `a === n` on a possibly-`undefined` number: `undefined === n` is
`false`. -/
def jsEqPriority : Option Nat → Nat → Bool
  | some a, b => a == b
  | none, _ => false

/-- `enqueueTask`: when the queue is at or above `MAX_QUEUE_DEPTH`, try to
splice out the first task whose `priority === PRIORITY.BACKGROUND` and post a
`DROPPED` event; then insert the new task before the first queued task with
strictly smaller `priority`, or push it at the end.  Returns the new queue
and the posted events. -/
def enqueueTask (queue : List QTask) (task : QTask) : List QTask × List Event :=
  let dropped :=
    if queue.length ≥ MAX_QUEUE_DEPTH then
      match queue.findIdx? (fun t => jsEqPriority t.priority PRIORITY_BACKGROUND) with
      | some i =>
        (queue.eraseIdx i,
         match queue[i]? with
         | some removed => [Event.dropped removed.id "Queue overflow"]
         | none => [])
      | none => (queue, [])
    else (queue, [])
  match dropped.1.findIdx? (fun t => jsLtPriority t.priority task.priority) with
  | none => (dropped.1 ++ [task], dropped.2)
  | some i => (dropped.1.take i ++ task :: dropped.1.drop i, dropped.2)

/-- `state.queue.shift() || null`. -/
def popFront (s : WState) : WState × List Event × Option QTask :=
  match s.queue with
  | [] => (s, [], none)
  | t :: rest => ({ s with queue := rest }, [], some t)

/-- `dequeueTask`: if a current task with `priority < PRIORITY.URGENT` exists
and an URGENT task is queued, preempt (post `PREEMPTED`, unshift the current
task onto the queue, drop the urgent task from it, return it); otherwise
shift the queue head. -/
def dequeueTask (s : WState) : WState × List Event × Option QTask :=
  match s.currentTask with
  | some cur =>
    if jsLtPriority cur.priority (some PRIORITY_URGENT) then
      match s.queue.find? (fun t => jsEqPriority t.priority PRIORITY_URGENT) with
      | some urgentTask =>
        ({ s with queue := (cur :: s.queue).filter (fun t => !(t.id == urgentTask.id)) },
         [Event.preempted cur.id], some urgentTask)
      | none => popFront s
    else popFront s
  | none => popFront s

/-- The fields `processTask` assigns on a task before dispatching it. -/
structure Scored where
  complexity : Nat
  realtime : Bool
  privacyFlag : Bool
  priority : Nat
  route : Route
deriving DecidableEq, Repr

/-- The scoring performed by `processTask` on the worker state:
`calculateComplexity` (which also derives `realtime` and `privacyFlag`, the
latter ORed with `state.config.privacyMode`), then `determinePriority` and
`makeRoutingDecision`. -/
def scoreParts (s : WState) (message : String) : Scored :=
  let complexity := calculateComplexity message
  let realtime := hasRealtimeFlag message
  let privacyFlag := hasPrivacyKeyword message || s.config.privacyMode
  let priority := determinePriority complexity realtime
  { complexity := complexity, realtime := realtime, privacyFlag := privacyFlag,
    priority := priority,
    route := makeRoutingDecision privacyFlag realtime complexity s.config
      s.localModelLoaded s.cloudAvailable }

/-- The task object after `processTask` has scored it. -/
def scoreTask (s : WState) (t : QTask) : QTask :=
  let p := scoreParts s t.message
  { t with complexity := some p.complexity, priority := some p.priority,
           realtime := some p.realtime, privacyFlag := some p.privacyFlag,
           route := some p.route }

/-- `processTask` together with its `finally` block.  The body scores the
task, posts `ROUTED`, and `executeTask` posts the `EXECUTE_LOCAL` /
`EXECUTE_CLOUD` message while assigning `state.currentTask` — an assignment
the `finally` block undoes at once: `executeTask` never awaits the executor,
so `await executeTask(task)` resolves immediately and the `finally`
(`state.currentTask = null; processNextTask()`) runs in the same macrotask,
before any further message event is handled.  `processNextTask` calls
`dequeueTask`, which therefore always sees `state.currentTask === null` and
reduces to `queue.shift()` — its preemption branch needs a current task (see
`dequeueTask_with_cleared_slot`) — and feeds any shifted task back into
`processTask`.  The cascade hence dispatches the queued tasks front-to-back
and ends with an empty queue and a cleared current slot.  Context assembly
is the raw message (no RAG booster). -/
def processTask (s : WState) (t : QTask) : WState × List Event :=
  let p := scoreParts s t.message
  let evs := [Event.routed t.id p.route p.complexity p.priority p.realtime p.privacyFlag,
    match p.route with
    | Route.LOCAL => Event.executeLocal t.id
    | Route.CLOUD => Event.executeCloud t.id]
  match hq : s.queue with
  | [] => ({ s with currentTask := none }, evs)
  | nxt :: rest =>
    let r := processTask { s with queue := rest, currentTask := none } nxt
    (r.1, evs ++ r.2)
termination_by s.queue.length
decreasing_by
  simp [hq]

/-- A partial `CONFIG` payload (JS object spread: a missing field keeps the
previous value). -/
structure ConfigUpdate where
  mode : Option Mode := none
  threshold : Option Nat := none
  privacyMode : Option Bool := none
deriving DecidableEq, Repr

/-- `updateConfig`: `state.config = { ...state.config, ...config }`. -/
def updateConfig (config : RouterConfig) (u : ConfigUpdate) : RouterConfig :=
  { mode := u.mode.getD config.mode,
    threshold := u.threshold.getD config.threshold,
    privacyMode := u.privacyMode.getD config.privacyMode }

/-- The messages the worker receives (`self.onmessage`). -/
inductive Msg where
  | task (id : Nat) (message : String)
  | configMsg (u : ConfigUpdate)
  | modelStatus (localModelLoaded cloudAvailable : Option Bool)
  | cancel (taskId : Nat)
  | clearQueue
  | completeTask (taskId : Nat) (response : String)
deriving DecidableEq, Repr

/-- One `self.onmessage` dispatch.  For `TASK`: stamp `receivedAt`, then
enqueue (posting `QUEUED` with the new queue length) if a current task
exists, else process immediately — and since `processTask`'s `finally` block
runs before the next message event, the current slot is clear at every
message arrival and the enqueue branch is dead code.  For `COMPLETE_TASK`:
`handleComplete` only posts `COMPLETE` (and hands the turn to the RAG
booster); it neither clears the current-task slot nor dequeues. -/
def step (s : WState) (m : Msg) : WState × List Event :=
  match m with
  | Msg.task id message =>
    let t : QTask := { id := id, message := message, receivedAt := s.now }
    let s1 := { s with now := s.now + 1 }
    match s1.currentTask with
    | some _ =>
      let q := enqueueTask s1.queue t
      ({ s1 with queue := q.1 }, q.2 ++ [Event.queued t.id q.1.length])
    | none => processTask s1 t
  | Msg.configMsg u => ({ s with config := updateConfig s.config u }, [])
  | Msg.modelStatus lm ca =>
    ({ s with localModelLoaded := lm.getD s.localModelLoaded,
              cloudAvailable := ca.getD s.cloudAvailable }, [])
  | Msg.cancel taskId =>
    match s.queue.findIdx? (fun t => t.id == taskId) with
    | some i => ({ s with queue := s.queue.eraseIdx i }, [Event.cancelled taskId])
    | none => (s, [])
  | Msg.clearQueue => ({ s with queue := [] }, [Event.queueCleared])
  | Msg.completeTask taskId response => (s, [Event.completed taskId response])

/-- Run a list of messages from a state, accumulating posted events. -/
def runMsgs (s : WState) : List Msg → WState × List Event
  | [] => (s, [])
  | m :: ms =>
    let r1 := step s m
    let r2 := runMsgs r1.1 ms
    (r2.1, r1.2 ++ r2.2)

/-- The state after running the messages from the initial state. -/
def runState (msgs : List Msg) : WState := (runMsgs initialState msgs).1

/-- The events posted while running the messages from the initial state. -/
def runEvents (msgs : List Msg) : List Event := (runMsgs initialState msgs).2

/-! ## GravitationalBit (`src/src/memory/gravitational-bit.js`)

`generateStates(nMax)` produces one state per quantum triple `(n, l, m)` with
`1 ≤ n ≤ nMax`, `0 ≤ l < n`, `-l ≤ m ≤ l`, then sorts them by their (float)
energy.  `encode` and `decode` touch only the `occupied` booleans by array
index, so only the number of states matters to them; sorting permutes the
array but preserves its length, and the float `energy`/`phase` decorations
are dropped from the model. -/

/-- The `(n, l, m)` triples generated by the `generateStates` loops, in loop
order. -/
def genStates (nMax : Nat) : List (Nat × Nat × Int) :=
  (List.range nMax).flatMap (fun n0 =>
    (List.range (n0 + 1)).flatMap (fun l =>
      (List.range (2 * l + 1)).map (fun k => (n0 + 1, l, (k : Int) - (l : Int)))))

/-- A `GravitationalBit`: its `nMax` and the `occupied` flags of its states,
in array order. -/
structure GravBit where
  nMax : Nat
  occ : List Bool
deriving DecidableEq, Repr

/-- `new GravitationalBit(nMax)`: all states unoccupied. -/
def mkGravBit (nMax : Nat) : GravBit :=
  { nMax := nMax, occ := List.replicate (genStates nMax).length false }

/-- `capacity()`: `Math.min(this.states.length, 128)`. -/
def GravBit.capacity (b : GravBit) : Nat := min b.occ.length 128

/-- `encode(value)`: reset all states, then occupy state `i` (for
`i < capacity`) iff bit `i` of the value is set. -/
def GravBit.encode (b : GravBit) (value : Nat) : GravBit :=
  let newOcc := (List.range b.occ.length).map
    (fun i => decide (i < b.capacity) && value.testBit i)
  { b with occ := newOcc }

/-- `decode()`: OR together `1 << i` over every occupied state `i`. -/
def GravBit.decode (b : GravBit) : Nat :=
  (List.range b.occ.length).foldl
    (fun value i => if b.occ.getD i false then value ||| (1 <<< i) else value) 0

/-- `hashText`: the SHA-256 digest bytes themselves come from the platform
(`crypto.subtle.digest`); the source then folds the first 16 bytes
big-endian: `hash = (hash << 8n) | BigInt(hashArray[i])`.  The digest is
modelled as an arbitrary byte list. -/
def hashFromBytes (digest : List (Fin 256)) : Nat :=
  (digest.take 16).foldl (fun hash (b : Fin 256) => (hash <<< 8) ||| b.val) 0

/-! ## RAGBooster.search scoring (`src/src/memory/rag-booster.js` 305-379)

The score is a real number (`Math.log` is transcendental), so `searchScore`
lives in `ℝ`; all its integer and Boolean ingredients are computable
definitions so concrete instances evaluate by `rfl`/`decide`. -/

/-- A stored chunk, reduced to the fields `search` reads: its text and the
optional `metadata.title`. -/
structure Chunk where
  text : String
  title : Option String := none
deriving DecidableEq, Repr

/-- `String.prototype.toLowerCase` (ASCII inputs). -/
def lowerStr (s : String) : String := String.mk (lowerChars s.data)

/-- `hay.includes(needle)` on strings. -/
def strIncludes (hay needle : String) : Bool := containsSub needle.data hay.data

/-- `s.split(/\s+/)` restricted to the non-empty tokens (JS can emit one
empty leading token, but both uses filter by `w.length > 2` right after, so
empty tokens never matter). -/
def splitWsAux : List Char → List Char → List String
  | acc, [] => if acc.isEmpty then [] else [String.mk acc.reverse]
  | acc, c :: rest =>
    if isSpaceCh c then
      if acc.isEmpty then splitWsAux [] rest
      else String.mk acc.reverse :: splitWsAux [] rest
    else splitWsAux (c :: acc) rest

/-- Whitespace-split of a string. -/
def splitWs (s : String) : List String := splitWsAux [] s.data

/-- `chunkWords`: lower-case, split on whitespace, keep words longer than 2
characters. -/
def wordsOf (s : String) : List String :=
  (splitWs (lowerStr s)).filter (fun w => w.length > 2)

/-- Number of occurrences of `w` in the word list
(`chunkWords.filter(x => x === word).length`). -/
def freqIn (ws : List String) (w : String) : Nat :=
  (ws.filter (fun x => x == w)).length

/-- `allChunks.filter(c => c.text.toLowerCase().includes(word)).length`. -/
def dfCount (corpus : List Chunk) (w : String) : Nat :=
  (corpus.filter (fun c => strIncludes (lowerStr c.text) w)).length

/-- Distinct elements of a list keeping first occurrences, modelling the
insertion order of `queryWordFreq`'s keys. -/
def distinctKeep (l : List String) : List String :=
  l.foldl (fun acc w => if acc.contains w then acc else acc ++ [w]) []

/-- `queryWordFreq` as an association list in key-insertion order. -/
def queryFreqList (query : String) : List (String × Nat) :=
  let qws := wordsOf query
  (distinctKeep qws).map (fun w => (w, freqIn qws w))

/-- The `score += tf * idf * queryFreq` accumulation of `search` over the
entries of `queryWordFreq`: `tf = chunkFreq / chunkWords.length` and
`idf = Math.log(allChunks.length / (1 + df(word)))`; a word with
`chunkFreq = 0` contributes nothing. -/
noncomputable def searchBase (corpus : List Chunk) (query : String) (c : Chunk) : ℝ :=
  ((queryFreqList query).map (fun wq =>
    let chunkFreq := freqIn (wordsOf c.text) wq.1
    if chunkFreq > 0 then
      ((chunkFreq : ℝ) / ((wordsOf c.text).length : ℝ))
        * Real.log ((corpus.length : ℝ) / (1 + (dfCount corpus wq.1 : ℝ)))
        * (wq.2 : ℝ)
    else 0)).sum

/-- The score `search` assigns to a chunk of the corpus for a query: the
TF-IDF-like accumulation, then `·2` on an exact phrase match and `·1.5` on a
metadata-title match. -/
noncomputable def searchScore (corpus : List Chunk) (query : String) (c : Chunk) : ℝ :=
  let base := searchBase corpus query c
  let base2 := if strIncludes (lowerStr c.text) (lowerStr query) then base * 2 else base
  if (match c.title with
      | some title => strIncludes (lowerStr title) (lowerStr query)
      | none => false) then base2 * 1.5 else base2

/-! ## Credential encryption (`src/src/core/soul.js` 580-695) -/

/-- Modelled from the spec: the AES-GCM cipher and PBKDF2 key derivation are
supplied by the browser's `crypto.subtle` API, which is not part of this
repository; only their callers (`encryptApiKeys`, `decryptApiKeys`,
`getApiKeys`, `setApiKeys`) are.  Per spec §6 the envelope uses
PBKDF2-HMAC-SHA-256 key derivation and authenticated AES-GCM whose
decryption fails on a key mismatch, so the derived key is modelled as the
(passphrase, salt) pair the derivation determines. -/
structure DerivedKey where
  passphrase : String
  salt : List Nat
deriving DecidableEq, Repr

/-- Modelled from the spec: an AES-GCM ciphertext is bound by its
authentication tag to the key and iv that produced it; decryption under any
other key (or iv) fails authentication instead of returning data. -/
structure AESCiphertext where
  tagKey : DerivedKey
  iv : List Nat
  payload : String
deriving DecidableEq, Repr

/-- Modelled from the spec: `crypto.subtle.deriveKey` with PBKDF2 over the
passphrase and salt. -/
def deriveKey (passphrase : String) (salt : List Nat) : DerivedKey :=
  { passphrase := passphrase, salt := salt }

/-- Modelled from the spec: `crypto.subtle.encrypt` with AES-GCM. -/
def subtleEncrypt (key : DerivedKey) (iv : List Nat) (data : String) : AESCiphertext :=
  { tagKey := key, iv := iv, payload := data }

/-- Modelled from the spec: `crypto.subtle.decrypt` with AES-GCM — returns
the payload iff key and iv authenticate, and fails otherwise. -/
def subtleDecrypt (key : DerivedKey) (iv : List Nat) (ct : AESCiphertext) : Option String :=
  if ct.tagKey = key ∧ ct.iv = iv then some ct.payload else none

/-- The `{ data, salt, iv }` envelope returned by `encryptApiKeys` (the
caller `setApiKeys` then adds `_encrypted = true`). -/
structure EncryptedKeys where
  data : AESCiphertext
  salt : List Nat
  iv : List Nat
deriving DecidableEq, Repr

/-- `encryptApiKeys(keys, passphrase)` with the randomly drawn `salt` and
`iv` made explicit parameters; `keys` is the serialized key bundle
(`JSON.stringify(keys)`). -/
def encryptApiKeys (keys passphrase : String) (salt iv : List Nat) : EncryptedKeys :=
  { data := subtleEncrypt (deriveKey passphrase salt) iv keys, salt := salt, iv := iv }

/-- `decryptApiKeys(encryptedKeys, passphrase)`: derive the key from the
stored salt and decrypt with the stored iv. -/
def decryptApiKeys (e : EncryptedKeys) (passphrase : String) : Option String :=
  subtleDecrypt (deriveKey passphrase e.salt) e.iv e.data

/-- `getApiKeys(passphrase)` on a bundle with `_encrypted = true`: any
decryption failure is surfaced as the thrown `'Invalid passphrase'` error. -/
def getApiKeysEncrypted (e : EncryptedKeys) (passphrase : String) : Except String String :=
  match decryptApiKeys e passphrase with
  | some keys => Except.ok keys
  | none => Except.error "Invalid passphrase"

/-! ## Concrete inputs used by the counterexamples and witnesses -/

/-- A 4000-character message: `countTokens` gives exactly 1000. -/
def bigText : String := String.mk (List.replicate 4000 'a')

/-- The complexity-scoring table exactly as the specification states it:
"+2 when `ceil(len(text)/4)` is **at least** 1000, a further +2 when it is at
least 4000", with the independent contributions summed and capped at 10. -/
def specTableComplexity (message : String) : Nat :=
  let lowerMessage := lowerChars message.data
  let tokenCount := countTokens message
  let lengthScore := (if tokenCount ≥ 1000 then 2 else 0) +
    (if tokenCount ≥ 4000 then 2 else 0)
  let multiScore :=
    if multiStepKeywords.any (fun kw => containsSub kw.data lowerMessage)
        || matchNumbered message.data then 3 else 0
  let domainScore :=
    if domainKeywordsCode.any (fun kw => containsSub kw.data lowerMessage)
        || domainKeywordsMath.any (fun kw => containsSub kw.data lowerMessage)
        || domainKeywordsLaw.any (fun kw => containsSub kw.data lowerMessage)
      then 2 else 0
  min (lengthScore + multiScore + domainScore) 10

/-- The scoring table amended to what the code computes: the length bonuses
require **strictly more** than 1000 (resp. 4000) approximate tokens. -/
def amendedTableComplexity (message : String) : Nat :=
  let lowerMessage := lowerChars message.data
  let tokenCount := countTokens message
  let lengthScore := (if tokenCount > 1000 then 2 else 0) +
    (if tokenCount > 4000 then 2 else 0)
  let multiScore :=
    if multiStepKeywords.any (fun kw => containsSub kw.data lowerMessage)
        || matchNumbered message.data then 3 else 0
  let domainScore :=
    if domainKeywordsCode.any (fun kw => containsSub kw.data lowerMessage)
        || domainKeywordsMath.any (fun kw => containsSub kw.data lowerMessage)
        || domainKeywordsLaw.any (fun kw => containsSub kw.data lowerMessage)
      then 2 else 0
  min (lengthScore + multiScore + domainScore) 10

/-- The events that would witness queue admission, eviction or preemption:
`QUEUED`, `DROPPED` and `PREEMPTED`. -/
def isQueueMutationEvent (e : Event) : Bool :=
  match e with
  | Event.queued _ _ => true
  | Event.dropped _ _ => true
  | Event.preempted _ => true
  | _ => false

/-- Corpus chunk: three occurrences of the query word. -/
def chA : Chunk := { text := "apple apple apple" }

/-- Corpus chunk without the query word. -/
def chB : Chunk := { text := "banana banana" }

/-- Corpus chunk without the query word. -/
def chC : Chunk := { text := "cherry cherry" }

/-- The added chunk, containing the query word. -/
def chD : Chunk := { text := "apple pie" }

/-- The added chunk for the monotone case, free of the query word. -/
def chZ : Chunk := { text := "zzzz" }

/-- The corpus before the insertion. -/
def corpus3 : List Chunk := [chA, chB, chC]

/-- The corpus after inserting `chD`. -/
def corpus4 : List Chunk := corpus3 ++ [chD]

/-- A worker state in forced-cloud mode with both executors available. -/
def cloudState : WState :=
  { initialState with
    config := { mode := Mode.cloudMode, threshold := 6, privacyMode := false },
    localModelLoaded := true, cloudAvailable := true }

/-- A task whose message carries a privacy keyword. -/
def secretTask : QTask := { id := 7, message := "keep this secret", receivedAt := 0 }

/-- A partial config update carrying only a threshold. -/
def thresholdUpd : ConfigUpdate := { threshold := some 9 }

set_option maxRecDepth 10000

/-! # Theorems -/

/-- C1: for every worker state — any `mode`, `threshold`,
`localModelLoaded`, `cloudAvailable` — and every task, if scoring sets the
task's privacy flag then the route `makeRoutingDecision` computes for it is
LOCAL. -/
theorem privacy_flag_forces_local_route (s : WState) (t : QTask)
    (h : (scoreTask s t).privacyFlag = some true) :
    (scoreTask s t).route = some Route.LOCAL := by
  simp only [scoreTask, scoreParts] at h ⊢
  simp only [Option.some.injEq] at h
  simp [makeRoutingDecision, h]

/-- Witness for C1: in forced-cloud mode with the cloud available, a message
holding the keyword `secret` is scored privacy-flagged and still routed
LOCAL. -/
theorem privacy_flag_forces_local_route_witness :
    (scoreTask cloudState secretTask).privacyFlag = some true ∧
    (scoreTask cloudState secretTask).route = some Route.LOCAL :=
  ⟨by decide, privacy_flag_forces_local_route cloudState secretTask (by decide)⟩

/-- `dequeueTask` invoked with a cleared current slot is `queue.shift()`:
its preemption branch requires a current task. -/
theorem dequeueTask_with_cleared_slot (s : WState) (h : s.currentTask = none) :
    dequeueTask s = popFront s := by
  unfold dequeueTask
  rw [h]

/-- After `processTask` (the body plus its `finally` cascade) the queue has
been drained and the current-task slot is clear. -/
theorem processTask_final_state (s : WState) (t : QTask) :
    (processTask s t).1.queue = [] ∧ (processTask s t).1.currentTask = none := by
  induction s, t using processTask.induct with
  | case1 s t hq =>
    rw [processTask]
    split
    · simp [hq]
    · rename_i nxt rest heq
      rw [hq] at heq
      cases heq
  | case2 s t nxt rest hq ih =>
    rw [processTask]
    split
    · rename_i heq
      rw [hq] at heq
      cases heq
    · rename_i nxt2 rest2 heq
      rw [hq] at heq
      injection heq with h1 h2
      subst h1
      subst h2
      exact ih

/-- Every event posted by `processTask` and its cascade is a `ROUTED` or
`EXECUTE_*` dispatch event — never `QUEUED`, `DROPPED` or `PREEMPTED`. -/
theorem processTask_events_dispatch (s : WState) (t : QTask) :
    ∀ e ∈ (processTask s t).2, isQueueMutationEvent e = false := by
  induction s, t using processTask.induct with
  | case1 s t hq =>
    intro e he
    rw [processTask] at he
    split at he
    · simp only [List.mem_cons, List.not_mem_nil, or_false] at he
      rcases he with rfl | rfl
      · rfl
      · cases (scoreParts s t.message).route <;> rfl
    · rename_i nxt rest heq
      rw [hq] at heq
      cases heq
  | case2 s t nxt rest hq ih =>
    intro e he
    rw [processTask] at he
    split at he
    · rename_i heq
      rw [hq] at heq
      cases heq
    · rename_i nxt2 rest2 heq
      rw [hq] at heq
      injection heq with h1 h2
      subst h1
      subst h2
      simp only [List.cons_append, List.nil_append, List.mem_cons] at he
      rcases he with rfl | rfl | he3
      · rfl
      · cases (scoreParts s t.message).route <;> rfl
      · exact ih e he3

/-- Every message handler preserves "empty queue, no current task": a `TASK`
arriving at a cleared state is dispatched immediately and the `finally`
cascade re-clears everything before the handler returns. -/
theorem step_preserves_cleared (s : WState) (m : Msg)
    (hq : s.queue = []) (hc : s.currentTask = none) :
    (step s m).1.queue = [] ∧ (step s m).1.currentTask = none := by
  cases m with
  | task id message =>
    simp only [step, hc]
    exact processTask_final_state _ _
  | configMsg u => simp [step, hq, hc]
  | modelStatus lm ca => simp [step, hq, hc]
  | cancel tid => simp [step, hq, hc, List.findIdx?]
  | clearQueue => simp [step, hc]
  | completeTask tid r => simp [step, hq, hc]

/-- A step from a state with a cleared current slot posts no `QUEUED`,
`DROPPED` or `PREEMPTED` event. -/
theorem step_events_clean (s : WState) (m : Msg) (hc : s.currentTask = none) :
    ∀ e ∈ (step s m).2, isQueueMutationEvent e = false := by
  cases m with
  | task id message =>
    intro e he
    simp only [step, hc] at he
    exact processTask_events_dispatch _ _ e he
  | configMsg u => intro e he; simp [step] at he
  | modelStatus lm ca => intro e he; simp [step] at he
  | cancel tid =>
    intro e he
    simp only [step] at he
    split at he
    · simp only [List.mem_cons, List.not_mem_nil, or_false] at he
      subst he
      rfl
    · simp at he
  | clearQueue =>
    intro e he
    simp only [step, List.mem_cons, List.not_mem_nil, or_false] at he
    subst he
    rfl
  | completeTask tid r =>
    intro e he
    simp only [step, List.mem_cons, List.not_mem_nil, or_false] at he
    subst he
    rfl

/-- Running any message sequence from a cleared state keeps the queue empty
and the current slot clear, and posts no queue-mutation event. -/
theorem runMsgs_cleared : ∀ (msgs : List Msg) (s : WState),
    s.queue = [] → s.currentTask = none →
    ((runMsgs s msgs).1.queue = [] ∧ (runMsgs s msgs).1.currentTask = none) ∧
    ∀ e ∈ (runMsgs s msgs).2, isQueueMutationEvent e = false := by
  intro msgs
  induction msgs with
  | nil =>
    intro s hq hc
    exact ⟨⟨hq, hc⟩, by simp [runMsgs]⟩
  | cons m ms ih =>
    intro s hq hc
    simp only [runMsgs]
    have h1 := step_preserves_cleared s m hq hc
    have h2 := step_events_clean s m hc
    have h3 := ih (step s m).1 h1.1 h1.2
    refine ⟨h3.1, ?_⟩
    intro e he
    rcases List.mem_append.mp he with he1 | he2
    · exact h2 e he1
    · exact h3.2 e he2

/-- Every reachable worker state has an empty queue and no current task. -/
theorem runState_cleared (msgs : List Msg) :
    (runState msgs).queue = [] ∧ (runState msgs).currentTask = none :=
  (runMsgs_cleared msgs initialState rfl rfl).1

/-- No reachable run ever posts `QUEUED`, `DROPPED` or `PREEMPTED`. -/
theorem runEvents_clean (msgs : List Msg) :
    ∀ e ∈ runEvents msgs, isQueueMutationEvent e = false :=
  (runMsgs_cleared msgs initialState rfl rfl).2

/-- C2: vacuously satisfied.  `processTask`'s `finally` block runs before
the next message event, so every reachable state has an empty queue: a
submission never arrives while the queue holds `MAX_QUEUE_DEPTH` (or any)
tasks, the claim's premise is never realized, and accordingly no `Dropped`
eviction is ever posted (nor any rejection issued). -/
theorem overflow_rule_vacuous_queue_never_fills :
    ∀ msgs : List Msg,
      (runState msgs).queue = [] ∧
      (runState msgs).queue.length < MAX_QUEUE_DEPTH ∧
      ∀ e ∈ runEvents msgs, ∀ id r, e ≠ Event.dropped id r := by
  intro msgs
  have h := runState_cleared msgs
  refine ⟨h.1, ?_, ?_⟩
  · rw [h.1]
    decide
  · intro e he id r heq
    have hc := runEvents_clean msgs e he
    rw [heq] at hc
    simp [isQueueMutationEvent] at hc

/-- C3: after every sequence of submissions, completions, cancellations and
clears, the queue holds at most `MAX_QUEUE_DEPTH` tasks — in fact it is
always empty, because every task is dispatched immediately and the
`finally` cascade drains the queue within the same message turn. -/
theorem queue_bound_holds :
    ∀ msgs : List Msg, (runState msgs).queue.length ≤ MAX_QUEUE_DEPTH := by
  intro msgs
  rw [(runState_cleared msgs).1]
  decide

/-- C5: vacuously satisfied.  The current slot is clear at every message
arrival, so every submission is dispatched immediately and no task is ever
enqueued (no `Queued` event is ever posted) — in particular no task is ever
enqueued at URGENT priority while a lower-priority task is current, and no
`Preempted` event is ever posted (`dequeueTask`'s preemption branch needs a
current task, but `processNextTask` always runs right after
`state.currentTask = null`). -/
theorem preemption_rule_vacuous_nothing_queued :
    ∀ msgs : List Msg,
      (runState msgs).currentTask = none ∧
      (∀ e ∈ runEvents msgs, ∀ id pos, e ≠ Event.queued id pos) ∧
      (∀ e ∈ runEvents msgs, ∀ id, e ≠ Event.preempted id) := by
  intro msgs
  refine ⟨(runState_cleared msgs).2, ?_, ?_⟩
  · intro e he id pos heq
    have hc := runEvents_clean msgs e he
    rw [heq] at hc
    simp [isQueueMutationEvent] at hc
  · intro e he id heq
    have hc := runEvents_clean msgs e he
    rw [heq] at hc
    simp [isQueueMutationEvent] at hc

/-- C6: trivially satisfied.  Every reachable queue is empty, so the
required ordering (higher priority first, FIFO by arrival within a class)
holds vacuously of its elements, and there is never a next task for
`dequeueTask` to yield. -/
theorem queue_order_trivial_empty_queue :
    ∀ msgs : List Msg,
      (runState msgs).queue = [] ∧
      (runState msgs).queue.Pairwise (fun a b =>
        jsLtPriority a.priority b.priority = false ∧
        (a.priority = b.priority → a.receivedAt ≤ b.receivedAt)) ∧
      (dequeueTask (runState msgs)).2.2 = none := by
  intro msgs
  have h := runState_cleared msgs
  refine ⟨h.1, ?_, ?_⟩
  · rw [h.1]
    exact List.Pairwise.nil
  · rw [dequeueTask_with_cleared_slot _ h.2]
    unfold popFront
    rw [h.1]

/-- C10: the CONFIG update is a shallow merge — every field absent from the
update keeps its previous value, the `CONFIG` message installs exactly the
merged record, and subsequent scoring reads that merged record. -/
theorem config_update_is_shallow_merge (s : WState) (u : ConfigUpdate) :
    (u.mode = none → (updateConfig s.config u).mode = s.config.mode) ∧
    (u.threshold = none → (updateConfig s.config u).threshold = s.config.threshold) ∧
    (u.privacyMode = none → (updateConfig s.config u).privacyMode = s.config.privacyMode) ∧
    (step s (Msg.configMsg u)).1.config = updateConfig s.config u ∧
    (∀ t, scoreTask (step s (Msg.configMsg u)).1 t
        = scoreTask { s with config := updateConfig s.config u } t) := by
  refine ⟨fun h => ?_, fun h => ?_, fun h => ?_, rfl, fun t => rfl⟩ <;>
    simp [updateConfig, h]

/-- Witness for C10: updating only the threshold keeps the initial mode and
privacy-mode and installs the merged record. -/
theorem config_update_is_shallow_merge_witness :
    (updateConfig initialState.config thresholdUpd).mode = Mode.auto ∧
    (updateConfig initialState.config thresholdUpd).privacyMode = false ∧
    (updateConfig initialState.config thresholdUpd).threshold = 9 ∧
    (step initialState (Msg.configMsg thresholdUpd)).1.config
      = updateConfig initialState.config thresholdUpd := by
  have h := config_update_is_shallow_merge initialState thresholdUpd
  exact ⟨(h.1 rfl).trans rfl, (h.2.2.1 rfl).trans rfl, by decide, h.2.2.2.1⟩

/-- A character of a list that is a substring prefix lies in the list. -/
theorem mem_of_isPrefixOfChars {n h : List Char} (hp : isPrefixOfChars n h = true) :
    ∀ c ∈ n, c ∈ h := by
  induction n generalizing h with
  | nil => intro c hc; cases hc
  | cons a as ih =>
    cases h with
    | nil => simp [isPrefixOfChars] at hp
    | cons b bs =>
      simp only [isPrefixOfChars, Bool.and_eq_true, beq_iff_eq] at hp
      intro c hc
      rcases List.mem_cons.mp hc with rfl | hc2
      · simp [hp.1]
      · exact List.mem_cons_of_mem _ (ih hp.2 c hc2)

/-- Every character of a contained substring occurs in the haystack. -/
theorem mem_of_containsSub {n h : List Char} (hc : containsSub n h = true) :
    ∀ c ∈ n, c ∈ h := by
  induction h with
  | nil =>
    intro c hcn
    cases n with
    | nil => cases hcn
    | cons a as => simp [containsSub, isPrefixOfChars] at hc
  | cons b bs ih =>
    simp only [containsSub, Bool.or_eq_true] at hc
    rcases hc with hpre | hrec
    · exact mem_of_isPrefixOfChars hpre
    · exact fun c hcn => List.mem_cons_of_mem _ (ih hrec c hcn)

/-- A needle holding a character other than `a` is not contained in a
repetition of `a`. -/
theorem containsSub_replicate_false {n : List Char} {a : Char} {k : Nat}
    (hx : n.any (fun c => !(c == a)) = true) :
    containsSub n (List.replicate k a) = false := by
  by_contra hcon
  rw [Bool.not_eq_false] at hcon
  obtain ⟨c, hcmem, hcne⟩ := List.any_eq_true.mp hx
  have hmem := mem_of_containsSub hcon c hcmem
  have := List.eq_of_mem_replicate hmem
  simp only [Bool.not_eq_true', beq_eq_false_iff_ne, ne_eq] at hcne
  exact hcne this

/-- No keyword of a list whose every entry has a character other than `a`
occurs in a repetition of `a`. -/
theorem any_containsSub_replicate_false (ks : List String) (a : Char) (k : Nat)
    (hall : ks.all (fun kw => kw.data.any (fun c => !(c == a))) = true) :
    ks.any (fun kw => containsSub kw.data (List.replicate k a)) = false := by
  refine List.any_eq_false.mpr ?_
  intro kw hkw
  simp only [Bool.not_eq_true]
  exact containsSub_replicate_false (List.all_eq_true.mp hall kw hkw)

/-- A head match of `\d+\s*[.)]\s+\w` starts with a digit. -/
theorem matchNumberedHead_digit {l : List Char} (h : matchNumberedHead l = true) :
    ∃ c ∈ l, isDigitCh c = true := by
  cases l with
  | nil => simp [matchNumberedHead] at h
  | cons c rest =>
    by_cases hd : isDigitCh c
    · exact ⟨c, List.mem_cons_self c rest, hd⟩
    · exfalso
      simp [matchNumberedHead, List.takeWhile_cons, hd] at h

/-- A match of the numbered-step regex needs a digit in the text. -/
theorem matchNumberedAux_digit :
    ∀ (l : List Char) (prev : Option Char), matchNumberedAux prev l = true →
      ∃ c ∈ l, isDigitCh c = true := by
  intro l
  induction l with
  | nil => intro prev h; simp [matchNumberedAux] at h
  | cons c rest ih =>
    intro prev h
    simp only [matchNumberedAux, Bool.or_eq_true, Bool.and_eq_true] at h
    rcases h with ⟨_, hhead⟩ | hrec
    · exact matchNumberedHead_digit hhead
    · obtain ⟨d, hd, hdig⟩ := ih (some c) hrec
      exact ⟨d, List.mem_cons_of_mem _ hd, hdig⟩

/-- The numbered-step regex does not match a digit-free repetition. -/
theorem matchNumbered_replicate_a (k : Nat) :
    matchNumbered (List.replicate k 'a') = false := by
  by_contra h
  rw [Bool.not_eq_false] at h
  obtain ⟨c, hc, hdig⟩ := matchNumberedAux_digit _ none h
  have hca := List.eq_of_mem_replicate hc
  subst hca
  exact absurd hdig (by decide)

/-- On a message without multi-step, numbered-step and domain signals and at
most 1000 approximate tokens, the code scores 0. -/
theorem calculateComplexity_eval_zero (message : String)
    (h1 : countTokens message ≤ 1000)
    (hms : multiStepKeywords.any
      (fun kw => containsSub kw.data (lowerChars message.data)) = false)
    (hnum : matchNumbered message.data = false)
    (hdc : domainKeywordsCode.any
      (fun kw => containsSub kw.data (lowerChars message.data)) = false)
    (hdm : domainKeywordsMath.any
      (fun kw => containsSub kw.data (lowerChars message.data)) = false)
    (hdl : domainKeywordsLaw.any
      (fun kw => containsSub kw.data (lowerChars message.data)) = false) :
    calculateComplexity message = 0 := by
  have hc1 : ¬ (countTokens message > 1000) := by omega
  have hc4 : ¬ (countTokens message > 4000) := by omega
  simp [calculateComplexity, hms, hnum, hdc, hdm, hdl, hc1, hc4]

/-- On the same signal-free message with 1000 to 3999 approximate tokens the
claimed table ("at least 1000") scores 2. -/
theorem specTableComplexity_eval_two (message : String)
    (h1 : 1000 ≤ countTokens message) (h2 : countTokens message < 4000)
    (hms : multiStepKeywords.any
      (fun kw => containsSub kw.data (lowerChars message.data)) = false)
    (hnum : matchNumbered message.data = false)
    (hdc : domainKeywordsCode.any
      (fun kw => containsSub kw.data (lowerChars message.data)) = false)
    (hdm : domainKeywordsMath.any
      (fun kw => containsSub kw.data (lowerChars message.data)) = false)
    (hdl : domainKeywordsLaw.any
      (fun kw => containsSub kw.data (lowerChars message.data)) = false) :
    specTableComplexity message = 2 := by
  have hc4 : ¬ (countTokens message ≥ 4000) := by omega
  simp [specTableComplexity, hms, hnum, hdc, hdm, hdl, h1, hc4]

/-- C4, counterexample: on a 4000-character message (`countTokens` is
exactly 1000) the code scores 0 — its length bonus needs strictly more than
1000 approximate tokens — while the claim's table ("at least 1000") gives 2,
so `calculateComplexity` does not equal the claimed table. -/
theorem complexity_table_counterexample :
    calculateComplexity bigText = 0 ∧ specTableComplexity bigText = 2 ∧
    calculateComplexity bigText ≠ specTableComplexity bigText := by
  have hdata : bigText.data = List.replicate 4000 'a' := rfl
  have hlen : bigText.length = 4000 := by
    show bigText.data.length = 4000
    rw [hdata, List.length_replicate]
  have hcount : countTokens bigText = 1000 := by
    unfold countTokens
    rw [hlen]
  have hlower : lowerChars bigText.data = List.replicate 4000 'a' := by
    rw [hdata]
    unfold lowerChars
    rw [List.map_replicate, show Char.toLower 'a' = 'a' from by decide]
  have hms : multiStepKeywords.any
      (fun kw => containsSub kw.data (lowerChars bigText.data)) = false := by
    rw [hlower]; exact any_containsSub_replicate_false _ _ _ (by decide)
  have hdc : domainKeywordsCode.any
      (fun kw => containsSub kw.data (lowerChars bigText.data)) = false := by
    rw [hlower]; exact any_containsSub_replicate_false _ _ _ (by decide)
  have hdm : domainKeywordsMath.any
      (fun kw => containsSub kw.data (lowerChars bigText.data)) = false := by
    rw [hlower]; exact any_containsSub_replicate_false _ _ _ (by decide)
  have hdl : domainKeywordsLaw.any
      (fun kw => containsSub kw.data (lowerChars bigText.data)) = false := by
    rw [hlower]; exact any_containsSub_replicate_false _ _ _ (by decide)
  have hnum : matchNumbered bigText.data = false := by
    rw [hdata]; exact matchNumbered_replicate_a 4000
  have e0 : calculateComplexity bigText = 0 :=
    calculateComplexity_eval_zero bigText (by omega) hms hnum hdc hdm hdl
  have e2 : specTableComplexity bigText = 2 :=
    specTableComplexity_eval_two bigText (by omega) (by omega) hms hnum hdc hdm hdl
  exact ⟨e0, e2, by omega⟩

/-- The bit `j` of the decode fold: set iff already set in the accumulator
or contributed by some index of the list that is occupied. -/
theorem testBit_foldl_orbit (l : List Nat) (g : Nat → Bool) (acc : Nat) (j : Nat) :
    (l.foldl (fun value i => if g i then value ||| (1 <<< i) else value) acc).testBit j
      = (acc.testBit j || (l.any (fun i => i == j) && g j)) := by
  induction l generalizing acc with
  | nil => simp
  | cons i rest ih =>
    rw [List.foldl_cons, ih]
    by_cases hij : i = j
    · subst hij
      by_cases hgi : g i
      · simp [hgi, Nat.testBit_or, Nat.one_shiftLeft, Nat.testBit_two_pow_self]
      · simp [hgi]
    · have hb : (i == j) = false := beq_eq_false_iff_ne.mpr hij
      by_cases hgi : g i
      · have hz : (1 <<< i).testBit j = false := by
          rw [Nat.one_shiftLeft]
          exact Nat.testBit_two_pow_of_ne hij
        simp [hgi, Nat.testBit_or, hz, hb, Bool.or_assoc]
      · simp [hgi, hb]

/-- Indexing a mapped range with a default. -/
theorem getD_map_range (n : Nat) (f : Nat → Bool) (i : Nat) :
    ((List.range n).map f).getD i false = if i < n then f i else false := by
  by_cases h : i < n
  · simp [List.getD_eq_getElem?_getD, List.getElem?_map, List.getElem?_range, h]
  · have hlen : ((List.range n).map f).length = n := by simp
    rw [List.getD_eq_getElem?_getD, List.getElem?_eq_none (by omega)]
    simp [h]

/-- Membership test of a range as a Boolean. -/
theorem any_range_beq (n j : Nat) :
    (List.range n).any (fun i => i == j) = decide (j < n) := by
  by_cases h : j < n
  · have ht : (List.range n).any (fun i => i == j) = true :=
      List.any_eq_true.mpr ⟨j, List.mem_range.mpr h, by simp⟩
    rw [ht]
    exact (decide_eq_true h).symm
  · have hf : (List.range n).any (fun i => i == j) = false := by
      refine List.any_eq_false.mpr ?_
      intro i hi
      have hne : i ≠ j := fun e => h (e ▸ List.mem_range.mp hi)
      simp [hne]
    rw [hf]
    exact (decide_eq_false h).symm

/-- C4, amended: `calculateComplexity` is a (deterministic) function of the
message equal to the claimed scoring table once both length thresholds are
read strictly ("more than 1000/4000 approximate tokens"), and its value
never exceeds 10. -/
theorem complexity_matches_amended_table (message : String) :
    calculateComplexity message = amendedTableComplexity message ∧
    calculateComplexity message ≤ 10 := by
  constructor
  · simp only [calculateComplexity, amendedTableComplexity]
    split_ifs <;> norm_num
  · simp only [calculateComplexity]
    exact Nat.min_le_right _ _

/-- Decoding an encoded value restores every bit below the capacity. -/
theorem decode_encode_of_lt (v : Nat) (hv : v < 2 ^ 128) :
    ((mkGravBit 8).encode v).decode = v := by
  have hlen : (mkGravBit 8).occ.length = 204 := by decide
  have hcap : (mkGravBit 8).capacity = 128 := by decide
  apply Nat.eq_of_testBit_eq
  intro j
  simp only [GravBit.decode, GravBit.encode, hlen, hcap, List.length_map,
    List.length_range]
  rw [testBit_foldl_orbit, any_range_beq]
  simp only [Nat.zero_testBit, Bool.false_or]
  rw [getD_map_range]
  by_cases hj : j < 204
  · by_cases hj128 : j < 128
    · simp [hj, hj128]
    · have hbit : v.testBit j = false := by
        apply Nat.testBit_lt_two_pow
        calc v < 2 ^ 128 := hv
          _ ≤ 2 ^ j := Nat.pow_le_pow_right (by norm_num) (by omega)
      simp [hj, hj128, hbit]
  · have hbit : v.testBit j = false := by
      apply Nat.testBit_lt_two_pow
      calc v < 2 ^ 128 := hv
        _ ≤ 2 ^ j := Nat.pow_le_pow_right (by norm_num) (by omega)
    simp [hj, hbit]

/-- The big-endian byte fold stays below `2 ^ (k + 8·len)`. -/
theorem hashFold_lt (l : List (Fin 256)) :
    ∀ acc k : Nat, acc < 2 ^ k →
      l.foldl (fun hash (b : Fin 256) => (hash <<< 8) ||| b.val) acc
        < 2 ^ (k + 8 * l.length) := by
  induction l with
  | nil => intro acc k h; simpa using h
  | cons b rest ih =>
    intro acc k h
    rw [List.foldl_cons]
    have h1 : (acc <<< 8) ||| b.val < 2 ^ (k + 8) := by
      apply Nat.or_lt_two_pow
      · rw [Nat.shiftLeft_eq, pow_add]
        exact (Nat.mul_lt_mul_right (by norm_num)).mpr h
      · calc b.val < 256 := b.isLt
          _ ≤ 2 ^ (k + 8) := by
            calc (256 : Nat) = 2 ^ 8 := by norm_num
              _ ≤ 2 ^ (k + 8) := Nat.pow_le_pow_right (by norm_num) (by omega)
    have h2 := ih _ _ h1
    have harr : k + 8 + 8 * rest.length = k + 8 * (b :: rest).length := by
      simp [List.length_cons]
      ring
    rw [harr] at h2
    exact h2

/-- C7: the fingerprint stored with a chunk is the first 16 bytes of its
SHA-256 digest read big-endian, hence below `2 ^ 128`; and for every value
below `2 ^ 128` a `GravitationalBit` with `nMax = 8` decodes its encoding
back to exactly that value, so the fingerprint recovered from the stored
orbital-state bitmap equals the hash recomputed from the stored text. -/
theorem fingerprint_bitmap_roundtrip :
    (∀ digest : List (Fin 256), hashFromBytes digest < 2 ^ 128) ∧
    (∀ v : Nat, v < 2 ^ 128 → ((mkGravBit 8).encode v).decode = v) := by
  constructor
  · intro digest
    unfold hashFromBytes
    have h := hashFold_lt (digest.take 16) 0 0 (by norm_num)
    have hle : (digest.take 16).length ≤ 16 := by
      simp [List.length_take]
    calc (digest.take 16).foldl (fun hash (b : Fin 256) => (hash <<< 8) ||| b.val) 0
        < 2 ^ (0 + 8 * (digest.take 16).length) := h
      _ ≤ 2 ^ 128 := Nat.pow_le_pow_right (by norm_num) (by omega)
  · exact decode_encode_of_lt

/-- Witness for C7: the roundtrip at the concrete fingerprint 12345. -/
theorem fingerprint_bitmap_roundtrip_witness :
    12345 < 2 ^ 128 ∧ ((mkGravBit 8).encode 12345).decode = 12345 :=
  ⟨by norm_num, fingerprint_bitmap_roundtrip.2 12345 (by norm_num)⟩

/-- C9: decrypting the encryption of a key bundle under the same passphrase
returns the bundle; under any different passphrase the authenticated
decryption fails and `getApiKeys` surfaces the thrown `'Invalid passphrase'`
error instead of returning data. -/
theorem encrypt_decrypt_roundtrip (p pw pw' : String) (salt iv : List Nat)
    (hne : pw' ≠ pw) :
    decryptApiKeys (encryptApiKeys p pw salt iv) pw = some p ∧
    getApiKeysEncrypted (encryptApiKeys p pw salt iv) pw'
      = Except.error "Invalid passphrase" := by
  constructor
  · simp [decryptApiKeys, encryptApiKeys, subtleDecrypt, subtleEncrypt, deriveKey]
  · simp [getApiKeysEncrypted, decryptApiKeys, encryptApiKeys, subtleDecrypt,
      subtleEncrypt, deriveKey, DerivedKey.mk.injEq, hne, Ne.symm hne]

/-- Witness for C9: the roundtrip and the failure at concrete inputs. -/
theorem encrypt_decrypt_roundtrip_witness :
    ("beta" : String) ≠ "alpha" ∧
    decryptApiKeys (encryptApiKeys "sk-123" "alpha" [1] [2]) "alpha" = some "sk-123" ∧
    getApiKeysEncrypted (encryptApiKeys "sk-123" "alpha" [1] [2]) "beta"
      = Except.error "Invalid passphrase" := by
  have h := encrypt_decrypt_roundtrip "sk-123" "alpha" "beta" [1] [2] (by decide)
  exact ⟨by decide, h.1, h.2⟩

/-- C8, counterexample: the corpus holds `chA = "apple apple apple"` (the
only chunk matching the query `"apple"`) plus two fillers; adding `chD =
"apple pie"` — one more chunk — lowers `chA`'s score from `2·ln(3/2)` to
`2·ln(4/3)`, so adding a chunk can strictly decrease the score of a
previously-matching chunk. -/
theorem search_score_decreases_on_added_chunk :
    searchScore corpus4 "apple" chA < searchScore corpus3 "apple" chA := by
  have hq : queryFreqList "apple" = [("apple", 1)] := by rfl
  have hw : wordsOf chA.text = ["apple", "apple", "apple"] := by rfl
  have hf : freqIn ["apple", "apple", "apple"] "apple" = 3 := by rfl
  have hph : strIncludes (lowerStr chA.text) (lowerStr "apple") = true := by rfl
  have hdf3 : dfCount corpus3 "apple" = 1 := by rfl
  have hdf4 : dfCount corpus4 "apple" = 2 := by rfl
  have hl3 : corpus3.length = 3 := by rfl
  have hl4 : corpus4.length = 4 := by rfl
  have htitle : chA.title = none := rfl
  have e3 : searchScore corpus3 "apple" chA = Real.log ((3 : ℝ) / 2) * 2 := by
    simp only [searchScore, searchBase, hq, hw, hf, hph, hdf3, hl3, htitle,
      List.map_cons, List.map_nil, List.sum_cons, List.sum_nil]
    norm_num
  have e4 : searchScore corpus4 "apple" chA = Real.log ((4 : ℝ) / 3) * 2 := by
    simp only [searchScore, searchBase, hq, hw, hf, hph, hdf4, hl4, htitle,
      List.map_cons, List.map_nil, List.sum_cons, List.sum_nil]
    norm_num
  rw [e3, e4]
  have hlog : Real.log ((4 : ℝ) / 3) < Real.log ((3 : ℝ) / 2) :=
    Real.log_lt_log (by norm_num) (by norm_num)
  linarith

/-- The TF-IDF accumulation is monotone in the corpus when the added chunk
contains no query word: the document frequencies are unchanged while the
corpus size grows, so each matched word's idf grows. -/
theorem searchBase_mono (corpus : List Chunk) (c d : Chunk) (query : String)
    (hne : corpus ≠ [])
    (hd : ∀ w ∈ (queryFreqList query).map Prod.fst,
      strIncludes (lowerStr d.text) w = false) :
    searchBase corpus query c ≤ searchBase (corpus ++ [d]) query c := by
  have hN : 0 < corpus.length := List.length_pos.mpr hne
  unfold searchBase
  apply List.sum_le_sum
  intro wq hwq
  simp only
  by_cases hcf : freqIn (wordsOf c.text) wq.1 > 0
  · simp only [hcf, if_pos]
    have hdfe : dfCount (corpus ++ [d]) wq.1 = dfCount corpus wq.1 := by
      unfold dfCount
      rw [List.filter_append]
      simp [hd wq.1 (List.mem_map.mpr ⟨wq, hwq, rfl⟩)]
    rw [hdfe, List.length_append]
    apply mul_le_mul_of_nonneg_right _ (by positivity)
    apply mul_le_mul_of_nonneg_left _ (by positivity)
    apply Real.log_le_log
    · apply div_pos
      · exact_mod_cast hN
      · positivity
    · have h1 : ((corpus.length : ℝ)) ≤ (((corpus.length + [d].length : Nat)) : ℝ) := by
        push_cast
        simp
      exact div_le_div_of_nonneg_right h1 (by positivity)
  · simp [hcf]

/-- C8, amended: adding a chunk whose (lower-cased) text contains no query
word never decreases the score `search` assigns to an existing chunk for the
same query; when the added chunk does contain a query word the score can
strictly decrease (see the counterexample). -/
theorem search_score_monotone_no_new_match
    (corpus : List Chunk) (c d : Chunk) (query : String)
    (hne : corpus ≠ [])
    (hd : ∀ w ∈ (queryFreqList query).map Prod.fst,
      strIncludes (lowerStr d.text) w = false) :
    searchScore corpus query c ≤ searchScore (corpus ++ [d]) query c := by
  have hbase := searchBase_mono corpus c d query hne hd
  simp only [searchScore]
  split_ifs
  · exact mul_le_mul_of_nonneg_right
      (mul_le_mul_of_nonneg_right hbase (by norm_num)) (by norm_num)
  · exact mul_le_mul_of_nonneg_right hbase (by norm_num)
  · exact mul_le_mul_of_nonneg_right hbase (by norm_num)
  · exact hbase

/-- Witness for C8's amended theorem: adding the query-word-free chunk
`chZ = "zzzz"` to the corpus `[chA]` does not decrease `chA`'s score. -/
theorem search_score_monotone_no_new_match_witness :
    ([chA] : List Chunk) ≠ [] ∧
    (∀ w ∈ (queryFreqList "apple").map Prod.fst,
      strIncludes (lowerStr chZ.text) w = false) ∧
    searchScore [chA] "apple" chA ≤ searchScore ([chA] ++ [chZ]) "apple" chA :=
  ⟨by decide, by decide,
   search_score_monotone_no_new_match [chA] chA chZ "apple" (by decide) (by decide)⟩
